import Mathlib

/-!
Shallow embedding of the bytecode interpreter in
src/Interpretador_bytecode.py (class BytecodeInterpreter).

The Python program is a stack virtual machine with a two-pass loader
(`load_bytecode`) and a fetch-dispatch-execute loop (`run`).  Python
strings are modeled as Lean `String` values, with the handful of string
methods the source uses (`strip`, `split`, `upper`, `splitlines`,
`endswith`, slicing, `int(...)` parsing) re-implemented structurally on
`List Char` so that everything reduces in the kernel.  Python `int` is
modeled as `Int`; Python `//` and `%` are floor division, modeled by
`Int.fdiv` and `Int.fmod`.  Python lists are heterogeneous, so stack
cells are a tagged `Value` type; the interpreter only ever pushes
integers, which the invariant theorems below make precise.
-/

namespace ByteVM

/-! ### Python string primitives -/

/-- Characters stripped by Python `str.strip()` (the ASCII whitespace
subset; exotic Unicode whitespace does not occur in bytecode listings). -/
def trimChars (cs : List Char) : List Char :=
  ((cs.dropWhile Char.isWhitespace).reverse.dropWhile Char.isWhitespace).reverse

/-- Models Python `s.strip()`. -/
def pyStrip (s : String) : String := String.mk (trimChars s.data)

/-- Models lines 33-37 of the source: drop a trailing `#` comment, then
strip surrounding whitespace. -/
def cleanLine (s : String) : String :=
  pyStrip (String.mk (s.data.takeWhile (fun ch => ch ≠ '#')))

/-- Models Python `s.endswith(":")`. -/
def endsWithColon (s : String) : Bool := s.data.getLast? == some ':'

/-- The label name obtained from a label line: Python `line[:-1].strip()`
(source line 43), applied to the cleaned line. -/
def labelNameOf (s : String) : String :=
  pyStrip (String.mk (cleanLine s).data.dropLast)

/-- A line that is blank or comment-only after comment stripping. -/
def isBlankLine (s : String) : Bool := (cleanLine s).isEmpty

/-- A non-blank cleaned line ending in a colon: a label declaration. -/
def isLabelLine (s : String) : Bool :=
  !(cleanLine s).isEmpty && endsWithColon (cleanLine s)

/-- A line that consumes an instruction index in pass 1: non-blank after
comment stripping and not a label declaration. -/
def isInstrLine (s : String) : Bool :=
  !(cleanLine s).isEmpty && !endsWithColon (cleanLine s)

/-- Uppercases an ASCII letter; models Python `str.upper()` per char. -/
def upperChar (c : Char) : Char :=
  if 'a' ≤ c ∧ c ≤ 'z' then Char.ofNat (c.toNat - 32) else c

/-- Models Python `s.upper()`. -/
def pyUpper (s : String) : String := String.mk (s.data.map upperChar)

/-- Accumulator-style splitter behind `tokenize`. -/
def tokenizeChars : List Char → List Char → List (List Char)
  | [], cur => if cur.isEmpty then [] else [cur.reverse]
  | c :: cs, cur =>
    if c.isWhitespace then
      if cur.isEmpty then tokenizeChars cs [] else cur.reverse :: tokenizeChars cs []
    else tokenizeChars cs (c :: cur)

/-- Models Python `s.split()` (source line 62): split on runs of
whitespace, discarding empty tokens. -/
def tokenize (s : String) : List String :=
  (tokenizeChars s.data []).map String.mk

/-- Decimal digit run to a number; `none` when empty or non-digit. -/
def digitsToNat? (cs : List Char) : Option Nat :=
  if cs.isEmpty then none
  else if cs.all Char.isDigit then
    some (cs.foldl (fun a c => a * 10 + (c.toNat - 48)) 0)
  else none

/-- Models Python `int(s)` for the strings this program feeds it:
optional surrounding whitespace, an optional sign, then decimal digits.
(Underscore digit separators and non-ASCII digits are not modeled; they
do not occur in bytecode listings or test inputs.) -/
def parsePyInt (s : String) : Option Int :=
  match trimChars s.data with
  | [] => none
  | c :: cs =>
    if c = '-' then (digitsToNat? cs).map (fun n => -(n : Int))
    else if c = '+' then (digitsToNat? cs).map (fun n => (n : Int))
    else (digitsToNat? (c :: cs)).map (fun n => (n : Int))

/-- Accumulator-style splitter behind `splitLines`. -/
def splitLinesChars : List Char → List Char → List String
  | [], cur => if cur.isEmpty then [] else [String.mk cur.reverse]
  | '\r' :: '\n' :: cs, cur => String.mk cur.reverse :: splitLinesChars cs []
  | '\n' :: cs, cur => String.mk cur.reverse :: splitLinesChars cs []
  | '\r' :: cs, cur => String.mk cur.reverse :: splitLinesChars cs []
  | c :: cs, cur => splitLinesChars cs (c :: cur)

/-- Models Python `text.splitlines()` (source line 26) for the common
line terminators. -/
def splitLines (text : String) : List String := splitLinesChars text.data []

/-! ### Data model -/

/-- A stack cell.  Python lists are heterogeneous; in this program the
only values that can reach the stack are `int`s (and, hypothetically,
strings flowing back out of the variable store).  The `VStr` arm exists
so that the integer-only invariant is a real statement rather than a
typing triviality. -/
inductive Value where
  | VInt (n : Int)
  | VStr (s : String)
deriving DecidableEq, Repr

/-- The result of `_parse_arg` (source lines 12-17): an `int` when
`int(arg_str)` succeeds, otherwise the stripped string. -/
inductive Arg where
  | int (n : Int)
  | str (s : String)
deriving DecidableEq, Repr

/-- Models `_parse_arg` (source lines 12-17). -/
def parseArg (a : String) : Arg :=
  match parsePyInt a with
  | some n => .int n
  | none => .str (pyStrip a)

/-- Fault kinds, one per raise/report site of the source, using the
names of the specification taxonomy (§7):
`stackUnderflow` = the IndexError raises, `divideByZero` = the
ZeroDivisionError raises (lines 135/138), `invalidAddress` = the
ValueError raises of JMP/JZ/JNZ/CALL, `invalidReturn` = the ValueError
raise of RET (line 201), `undefinedVariable` = the KeyError raise of
LOAD (line 151), `invalidInput` = the ValueError raise of READ
(line 217), `endOfInput` = the EOFError report of READ (line 219),
`unknownOpcode` = the ValueError raise of the dispatch default
(line 224). -/
inductive Fault where
  | stackUnderflow
  | divideByZero
  | invalidAddress
  | invalidReturn
  | undefinedVariable
  | invalidInput
  | endOfInput
  | unknownOpcode
deriving DecidableEq, Repr

/-- A loaded instruction.  `load_bytecode` guarantees the operand shape
of each opcode (one resolved integer address for the jump family, one
integer literal for PUSH, one non-empty name for STORE/LOAD, nothing for
the rest), so the opcode string plus its parsed argument list is
represented as one constructor per opcode.  Zero-argument lines whose
opcode the engine does not dispatch still load (the else branch of the
loader only checks arity, source lines 93-97); `unknown` carries them. -/
inductive Instr where
  | push (n : Int)
  | pop
  | add
  | sub
  | mul
  | div
  | mod
  | neg
  | store (x : String)
  | load (x : String)
  | jmp (t : Int)
  | jz (t : Int)
  | jnz (t : Int)
  | halt
  | eq
  | neq
  | lt
  | gt
  | le
  | ge
  | call (t : Int)
  | ret
  | print
  | read
  | unknown (opcode : String)
deriving DecidableEq, Repr

/-! ### Loader -/

/-- Outcome of pass 1 of `load_bytecode` (source lines 31-55).  On
failure (`failed = true`) the label table holds the entries made so far,
matching the partially mutated `self.labels`; no instruction candidates
survive a failed pass 1 because Python discards the local list. -/
structure Pass1Out where
  labels : List (String × Nat)
  raws : List String
  failed : Bool
deriving DecidableEq, Repr

/-- Pass 1 (source lines 31-55): comment-strip and trim each line, skip
blanks, record labels with the running executable-instruction index
(duplicates and empty names abort), and collect the cleaned text of every
other line as an instruction candidate.  The label table is an
association list where a fresh entry is consed on; the duplicate check
guarantees at most one entry per name.  The 1-based source line numbers
that Python carries along feed only the diagnostic messages and are not
modeled. -/
def pass1 : List String → List (String × Nat) → Nat → List String → Pass1Out
  | [], labels, _, raws => ⟨labels, raws, false⟩
  | l :: rest, labels, counter, raws =>
    let c := cleanLine l
    if c.isEmpty then pass1 rest labels counter raws
    else if endsWithColon c then
      let name := labelNameOf l
      if name.isEmpty then ⟨labels, raws, true⟩
      else if (labels.lookup name).isSome then ⟨labels, raws, true⟩
      else pass1 rest ((name, counter) :: labels) counter raws
    else pass1 rest labels (counter + 1) (raws ++ [c])

/-- Resolves the single operand of the jump family (source lines 72-83):
an integer token is a direct address, anything else must be a known
label. -/
def resolveTarget (labels : List (String × Nat)) (tok : String) : Option Int :=
  match parseArg tok with
  | .int n => some n
  | .str name =>
    match labels.lookup name with
    | some i => some (i : Int)
    | none => none

/-- Maps a recognized zero-argument opcode string to its instruction;
every other zero-argument opcode reaches the dispatch default at run
time (source line 224), carried here as `unknown`. -/
def zeroArgInstr (opcode : String) : Instr :=
  if opcode = "POP" then .pop
  else if opcode = "ADD" then .add
  else if opcode = "SUB" then .sub
  else if opcode = "MUL" then .mul
  else if opcode = "DIV" then .div
  else if opcode = "MOD" then .mod
  else if opcode = "NEG" then .neg
  else if opcode = "HALT" then .halt
  else if opcode = "EQ" then .eq
  else if opcode = "NEQ" then .neq
  else if opcode = "LT" then .lt
  else if opcode = "GT" then .gt
  else if opcode = "LE" then .le
  else if opcode = "GE" then .ge
  else if opcode = "RET" then .ret
  else if opcode = "PRINT" then .print
  else if opcode = "READ" then .read
  else .unknown opcode

/-- Pass 2 argument validation for one instruction line (source lines
62-97): the first token, uppercased, selects the arity/type rule.
`none` is the ValueError path that aborts loading. -/
def parseParts (labels : List (String × Nat)) (opcode : String)
    (args : List String) : Option Instr :=
  if opcode = "JMP" ∨ opcode = "JZ" ∨ opcode = "JNZ" ∨ opcode = "CALL" then
    match args with
    | [a] =>
      match resolveTarget labels a with
      | some t =>
        if opcode = "JMP" then some (.jmp t)
        else if opcode = "JZ" then some (.jz t)
        else if opcode = "JNZ" then some (.jnz t)
        else some (.call t)
      | none => none
    | _ => none
  else if opcode = "PUSH" then
    match args with
    | [a] => (parsePyInt a).map .push
    | _ => none
  else if opcode = "STORE" ∨ opcode = "LOAD" then
    match args with
    | [a] =>
      match parseArg a with
      | .int _ => none
      | .str name =>
        if name.isEmpty then none
        else if opcode = "STORE" then some (.store name) else some (.load name)
    | _ => none
  else
    match args with
    | [] => some (zeroArgInstr opcode)
    | _ => none

/-- Outcome of pass 2 (source lines 57-104).  On failure the
instructions appended before the offending line remain, matching the
partially mutated `self.instructions`. -/
structure Pass2Out where
  instrs : List Instr
  failed : Bool
deriving DecidableEq, Repr

/-- Pass 2 over the instruction candidates collected by pass 1. -/
def pass2 (labels : List (String × Nat)) : List String → List Instr → Pass2Out
  | [], acc => ⟨acc, false⟩
  | text :: rest, acc =>
    match tokenize text with
    | [] => pass2 labels rest acc
    | op :: args =>
      match parseParts labels (pyUpper op) args with
      | some instr => pass2 labels rest (acc ++ [instr])
      | none => ⟨acc, true⟩

/-- The interpreter state (the `BytecodeInterpreter` object fields plus
its external sinks): `stack`, `memory`, `instructions`, `ip`, `labels`
and `halted` are the Python attributes; `output` models the stdout sink
written by PRINT, `input` the remaining stdin lines consumed by READ,
and `fault` the runtime diagnostic emitted when the engine halts on a
fault (`none` while no fault has been reported). -/
structure VMState where
  stack : List Value
  memory : List (String × Value)
  instructions : List Instr
  ip : Nat
  halted : Bool
  labels : List (String × Nat)
  output : List Value
  input : List String
  fault : Option Fault
deriving DecidableEq, Repr

/-- A freshly constructed interpreter (source lines 4-10) holding the
given pending input lines. -/
def initVM (prog : List Instr) (inp : List String) : VMState :=
  { stack := [], memory := [], instructions := prog, ip := 0,
    halted := false, labels := [], output := [], input := inp,
    fault := none }

/-- Models `load_bytecode` (source lines 19-104) called on a fresh
interpreter: pass 1, then pass 2; any failure sets `halted`. -/
def load_bytecode (lines : List String) : VMState :=
  let p1 := pass1 lines [] 0 []
  if p1.failed then
    { stack := [], memory := [], instructions := [], ip := 0,
      halted := true, labels := p1.labels, output := [], input := [],
      fault := none }
  else
    let p2 := pass2 p1.labels p1.raws []
    { stack := [], memory := [], instructions := p2.instrs, ip := 0,
      halted := p2.failed, labels := p1.labels, output := [], input := [],
      fault := none }

/-- Loading from a single source text, as `__main__` does with the full
standard input (source lines 233-238). -/
def loadSource (text : String) : VMState := load_bytecode (splitLines text)

/-! ### Execution engine -/

/-- Result of dispatching one instruction (the body of the `try` block,
source lines 120-227).  `ok` is normal completion with the program
counter already advanced or redirected; `fault k s` is a raised
IndexError/ValueError/KeyError/ZeroDivisionError caught at line 229,
carrying the state as mutated up to the raise point; `crash` marks a
TypeError on a non-integer stack cell, which the handler at line 229
would not catch — the integer-only invariant proves it unreachable for
any state the interpreter can actually be in. -/
inductive StepResult where
  | ok (s : VMState)
  | fault (k : Fault) (s : VMState)
  | crash
deriving DecidableEq, Repr

/-- One dispatch of the instruction `i` in state `s` (source lines
120-227).  Pops and pushes happen in source order, so a raise after a
pop leaves the pop applied — exactly as in Python. -/
def step (i : Instr) (s : VMState) : StepResult :=
  match i with
  | .push n => .ok { s with stack := .VInt n :: s.stack, ip := s.ip + 1 }
  | .pop =>
    match s.stack with
    | [] => .fault .stackUnderflow s
    | _ :: rest => .ok { s with stack := rest, ip := s.ip + 1 }
  | .add =>
    match s.stack with
    | op2 :: op1 :: rest =>
      match op1, op2 with
      | .VInt a, .VInt b =>
        .ok { s with stack := .VInt (a + b) :: rest, ip := s.ip + 1 }
      | .VStr a, .VStr b =>
        -- Python + on two strings concatenates; unreachable for loaded
        -- programs by the integer-only invariant.
        .ok { s with stack := .VStr (a ++ b) :: rest, ip := s.ip + 1 }
      | _, _ => .crash
    | _ => .fault .stackUnderflow s
  | .sub =>
    match s.stack with
    | op2 :: op1 :: rest =>
      match op1, op2 with
      | .VInt a, .VInt b =>
        .ok { s with stack := .VInt (a - b) :: rest, ip := s.ip + 1 }
      -- Any string operand is a Python TypeError here; unreachable for
      -- loaded programs by the integer-only invariant.
      | _, _ => .crash
    | _ => .fault .stackUnderflow s
  | .mul =>
    match s.stack with
    | op2 :: op1 :: rest =>
      match op1, op2 with
      | .VInt a, .VInt b =>
        .ok { s with stack := .VInt (a * b) :: rest, ip := s.ip + 1 }
      -- Python would repeat a string multiplied by an int; that corner,
      -- like every string operand here, is unreachable for loaded
      -- programs by the integer-only invariant, and is marked crash.
      | _, _ => .crash
    | _ => .fault .stackUnderflow s
  | .div =>
    match s.stack with
    | op2 :: op1 :: rest =>
      -- Both pops precede the zero test (source lines 129-135), so the
      -- ZeroDivisionError leaves the two operands removed.
      if op2 = .VInt 0 then .fault .divideByZero { s with stack := rest }
      else
        match op1, op2 with
        | .VInt a, .VInt b =>
          .ok { s with stack := .VInt (a.fdiv b) :: rest, ip := s.ip + 1 }
        | _, _ => .crash
    | _ => .fault .stackUnderflow s
  | .mod =>
    match s.stack with
    | op2 :: op1 :: rest =>
      if op2 = .VInt 0 then .fault .divideByZero { s with stack := rest }
      else
        match op1, op2 with
        | .VInt a, .VInt b =>
          .ok { s with stack := .VInt (a.fmod b) :: rest, ip := s.ip + 1 }
        | _, _ => .crash
    | _ => .fault .stackUnderflow s
  | .neg =>
    match s.stack with
    | [] => .fault .stackUnderflow s
    | v :: rest =>
      match v with
      | .VInt n => .ok { s with stack := .VInt (-n) :: rest, ip := s.ip + 1 }
      | .VStr _ => .crash
  | .store x =>
    match s.stack with
    | [] => .fault .stackUnderflow s
    | v :: rest =>
      .ok { s with stack := rest, memory := (x, v) :: s.memory, ip := s.ip + 1 }
  | .load x =>
    match s.memory.lookup x with
    | none => .fault .undefinedVariable s
    | some v => .ok { s with stack := v :: s.stack, ip := s.ip + 1 }
  | .jmp t =>
    if 0 ≤ t ∧ t ≤ (s.instructions.length : Int) then
      .ok { s with ip := t.toNat }
    else .fault .invalidAddress s
  | .jz t =>
    match s.stack with
    | [] => .fault .stackUnderflow s
    | v :: rest =>
      if v = .VInt 0 then
        if 0 ≤ t ∧ t ≤ (s.instructions.length : Int) then
          .ok { s with stack := rest, ip := t.toNat }
        else .fault .invalidAddress { s with stack := rest }
      else .ok { s with stack := rest, ip := s.ip + 1 }
  | .jnz t =>
    match s.stack with
    | [] => .fault .stackUnderflow s
    | v :: rest =>
      if v ≠ .VInt 0 then
        if 0 ≤ t ∧ t ≤ (s.instructions.length : Int) then
          .ok { s with stack := rest, ip := t.toNat }
        else .fault .invalidAddress { s with stack := rest }
      else .ok { s with stack := rest, ip := s.ip + 1 }
  | .halt => .ok { s with halted := true }
  | .eq =>
    match s.stack with
    | op2 :: op1 :: rest =>
      .ok { s with stack := .VInt (if op1 = op2 then 1 else 0) :: rest,
                   ip := s.ip + 1 }
    | _ => .fault .stackUnderflow s
  | .neq =>
    match s.stack with
    | op2 :: op1 :: rest =>
      .ok { s with stack := .VInt (if op1 = op2 then 0 else 1) :: rest,
                   ip := s.ip + 1 }
    | _ => .fault .stackUnderflow s
  | .lt =>
    match s.stack with
    | op2 :: op1 :: rest =>
      match op1, op2 with
      | .VInt a, .VInt b =>
        .ok { s with stack := .VInt (if a < b then 1 else 0) :: rest,
                     ip := s.ip + 1 }
      | .VStr a, .VStr b =>
        -- Python compares two strings lexicographically by code point,
        -- as Lean String order does; unreachable for loaded programs.
        .ok { s with stack := .VInt (if a < b then 1 else 0) :: rest,
                     ip := s.ip + 1 }
      | _, _ => .crash
    | _ => .fault .stackUnderflow s
  | .gt =>
    match s.stack with
    | op2 :: op1 :: rest =>
      match op1, op2 with
      | .VInt a, .VInt b =>
        .ok { s with stack := .VInt (if a > b then 1 else 0) :: rest,
                     ip := s.ip + 1 }
      | .VStr a, .VStr b =>
        .ok { s with stack := .VInt (if a > b then 1 else 0) :: rest,
                     ip := s.ip + 1 }
      | _, _ => .crash
    | _ => .fault .stackUnderflow s
  | .le =>
    match s.stack with
    | op2 :: op1 :: rest =>
      match op1, op2 with
      | .VInt a, .VInt b =>
        .ok { s with stack := .VInt (if a ≤ b then 1 else 0) :: rest,
                     ip := s.ip + 1 }
      | .VStr a, .VStr b =>
        .ok { s with stack := .VInt (if a ≤ b then 1 else 0) :: rest,
                     ip := s.ip + 1 }
      | _, _ => .crash
    | _ => .fault .stackUnderflow s
  | .ge =>
    match s.stack with
    | op2 :: op1 :: rest =>
      match op1, op2 with
      | .VInt a, .VInt b =>
        .ok { s with stack := .VInt (if a ≥ b then 1 else 0) :: rest,
                     ip := s.ip + 1 }
      | .VStr a, .VStr b =>
        .ok { s with stack := .VInt (if a ≥ b then 1 else 0) :: rest,
                     ip := s.ip + 1 }
      | _, _ => .crash
    | _ => .fault .stackUnderflow s
  | .call t =>
    if 0 ≤ t ∧ t < (s.instructions.length : Int) then
      .ok { s with stack := .VInt ((s.ip : Int) + 1) :: s.stack, ip := t.toNat }
    else .fault .invalidAddress s
  | .ret =>
    match s.stack with
    | [] => .fault .stackUnderflow s
    | v :: rest =>
      match v with
      | .VInt r =>
        if 0 ≤ r ∧ r ≤ (s.instructions.length : Int) then
          .ok { s with stack := rest, ip := r.toNat }
        else .fault .invalidReturn { s with stack := rest }
      | .VStr _ =>
        -- The isinstance test of source line 200 fails; the same
        -- ValueError is raised as for an out-of-range address.
        .fault .invalidReturn { s with stack := rest }
  | .print =>
    match s.stack with
    | [] => .fault .stackUnderflow s
    | v :: _ => .ok { s with output := s.output ++ [v], ip := s.ip + 1 }
  | .read =>
    match s.input with
    | [] =>
      -- EOFError path (source lines 218-220): report and halt without
      -- raising; the instruction pointer does not advance.
      .ok { s with halted := true, fault := some .endOfInput }
    | line :: rest =>
      match parsePyInt line with
      | some n =>
        .ok { s with stack := .VInt n :: s.stack, input := rest, ip := s.ip + 1 }
      | none => .fault .invalidInput { s with input := rest }
  | .unknown _ => .fault .unknownOpcode s

/-- Models `run` (source lines 106-231) with explicit fuel: each
iteration fetches `instructions[ip]` while `ip` is in range and the
machine is not halted; a caught fault sets `halted` and records the
diagnostic; `none` is an uncaught TypeError aborting the process. -/
def run : Nat → VMState → Option VMState
  | 0, s => some s
  | fuel + 1, s =>
    if s.halted then some s
    else if h : s.ip < s.instructions.length then
      match step (s.instructions.get ⟨s.ip, h⟩) s with
      | .ok s1 => run fuel s1
      | .fault k s1 => some { s1 with halted := true, fault := some k }
      | .crash => none
    else some s

/-- All cells of a value list are machine integers. -/
def stackInts (l : List Value) : Prop := ∀ v ∈ l, ∃ n, v = Value.VInt n

/-- All bindings of the variable store are machine integers. -/
def memInts (m : List (String × Value)) : Prop :=
  ∀ p ∈ m, ∃ n, (p : String × Value).2 = Value.VInt n

/-- The integer-only invariant: every stack cell and every variable
binding of the state is an integer. -/
def IntOnly (s : VMState) : Prop := stackInts s.stack ∧ memInts s.memory

/-! ### Helper lemmas -/

theorem stackInts_cons_iff {v : Value} {l : List Value} :
    stackInts (v :: l) ↔ (∃ n, v = Value.VInt n) ∧ stackInts l := by
  simp [stackInts]

theorem memInts_cons_iff {p : String × Value} {m : List (String × Value)} :
    memInts (p :: m) ↔ (∃ n, p.2 = Value.VInt n) ∧ memInts m := by
  simp [memInts]

/-- A successful association-list lookup returns a stored value. -/
theorem lookup_mem_values {β : Type} (x : String) :
    ∀ (m : List (String × β)) (v : β), m.lookup x = some v →
      ∃ k, (k, v) ∈ m := by
  intro m v
  induction m with
  | nil => intro h; cases h
  | cons p m ih =>
    obtain ⟨k, b⟩ := p
    intro h
    rw [List.lookup] at h
    cases hbeq : x == k with
    | true =>
      rw [hbeq] at h
      cases h
      exact ⟨k, List.mem_cons_self _ _⟩
    | false =>
      rw [hbeq] at h
      obtain ⟨k1, hk1⟩ := ih h
      exact ⟨k1, List.mem_cons_of_mem _ hk1⟩

/-- One dispatch step from an integer-only state never crashes (no
TypeError is reachable) and preserves the integer-only invariant, on
both the normal and the caught-fault path. -/
theorem step_preserves_IntOnly (i : Instr) (s : VMState) (h : IntOnly s) :
    (∃ s1, step i s = .ok s1 ∧ IntOnly s1) ∨
    (∃ k s1, step i s = .fault k s1 ∧ IntOnly s1) := by
  obtain ⟨hst, hmem⟩ := h
  cases i with
  | push n =>
    left
    refine ⟨_, rfl, ?_, hmem⟩
    rw [stackInts_cons_iff]
    exact ⟨⟨n, rfl⟩, hst⟩
  | pop =>
    cases hstk : s.stack with
    | nil => exact .inr ⟨.stackUnderflow, s, (by simp [step, hstk]; try rfl), hst, hmem⟩
    | cons v rest =>
      rw [hstk, stackInts_cons_iff] at hst
      exact .inl ⟨_, (by simp [step, hstk]; try rfl), by exact hst.2, by exact hmem⟩
  | add =>
    cases hstk : s.stack with
    | nil => exact .inr ⟨.stackUnderflow, s, (by simp [step, hstk]; try rfl), hst, hmem⟩
    | cons v2 stk =>
      cases hstk2 : stk with
      | nil =>
        exact .inr ⟨.stackUnderflow, s, (by simp [step, hstk, hstk2]; try rfl), hst, hmem⟩
      | cons v1 rest =>
        rw [hstk2] at hstk
        rw [hstk, stackInts_cons_iff, stackInts_cons_iff] at hst
        obtain ⟨⟨b, rfl⟩, ⟨a, rfl⟩, hrest⟩ := hst
        refine .inl ⟨_, (by simp [step, hstk]; try rfl), ?_, by exact hmem⟩
        rw [stackInts_cons_iff]
        exact ⟨⟨a + b, rfl⟩, hrest⟩
  | sub =>
    cases hstk : s.stack with
    | nil => exact .inr ⟨.stackUnderflow, s, (by simp [step, hstk]; try rfl), hst, hmem⟩
    | cons v2 stk =>
      cases hstk2 : stk with
      | nil =>
        exact .inr ⟨.stackUnderflow, s, (by simp [step, hstk, hstk2]; try rfl), hst, hmem⟩
      | cons v1 rest =>
        rw [hstk2] at hstk
        rw [hstk, stackInts_cons_iff, stackInts_cons_iff] at hst
        obtain ⟨⟨b, rfl⟩, ⟨a, rfl⟩, hrest⟩ := hst
        refine .inl ⟨_, (by simp [step, hstk]; try rfl), ?_, by exact hmem⟩
        rw [stackInts_cons_iff]
        exact ⟨⟨a - b, rfl⟩, hrest⟩
  | mul =>
    cases hstk : s.stack with
    | nil => exact .inr ⟨.stackUnderflow, s, (by simp [step, hstk]; try rfl), hst, hmem⟩
    | cons v2 stk =>
      cases hstk2 : stk with
      | nil =>
        exact .inr ⟨.stackUnderflow, s, (by simp [step, hstk, hstk2]; try rfl), hst, hmem⟩
      | cons v1 rest =>
        rw [hstk2] at hstk
        rw [hstk, stackInts_cons_iff, stackInts_cons_iff] at hst
        obtain ⟨⟨b, rfl⟩, ⟨a, rfl⟩, hrest⟩ := hst
        refine .inl ⟨_, (by simp [step, hstk]; try rfl), ?_, by exact hmem⟩
        rw [stackInts_cons_iff]
        exact ⟨⟨a * b, rfl⟩, hrest⟩
  | div =>
    cases hstk : s.stack with
    | nil => exact .inr ⟨.stackUnderflow, s, (by simp [step, hstk]; try rfl), hst, hmem⟩
    | cons v2 stk =>
      cases hstk2 : stk with
      | nil =>
        exact .inr ⟨.stackUnderflow, s, (by simp [step, hstk, hstk2]; try rfl), hst, hmem⟩
      | cons v1 rest =>
        rw [hstk2] at hstk
        rw [hstk, stackInts_cons_iff, stackInts_cons_iff] at hst
        obtain ⟨⟨b, rfl⟩, ⟨a, rfl⟩, hrest⟩ := hst
        by_cases hb : b = 0
        · subst hb
          exact .inr ⟨.divideByZero, _, (by simp [step, hstk]; try rfl), by exact hrest, by exact hmem⟩
        · refine .inl ⟨_, (by simp [step, hstk, hb]; try rfl), ?_, by exact hmem⟩
          rw [stackInts_cons_iff]
          exact ⟨⟨a.fdiv b, rfl⟩, hrest⟩
  | mod =>
    cases hstk : s.stack with
    | nil => exact .inr ⟨.stackUnderflow, s, (by simp [step, hstk]; try rfl), hst, hmem⟩
    | cons v2 stk =>
      cases hstk2 : stk with
      | nil =>
        exact .inr ⟨.stackUnderflow, s, (by simp [step, hstk, hstk2]; try rfl), hst, hmem⟩
      | cons v1 rest =>
        rw [hstk2] at hstk
        rw [hstk, stackInts_cons_iff, stackInts_cons_iff] at hst
        obtain ⟨⟨b, rfl⟩, ⟨a, rfl⟩, hrest⟩ := hst
        by_cases hb : b = 0
        · subst hb
          exact .inr ⟨.divideByZero, _, (by simp [step, hstk]; try rfl), by exact hrest, by exact hmem⟩
        · refine .inl ⟨_, (by simp [step, hstk, hb]; try rfl), ?_, by exact hmem⟩
          rw [stackInts_cons_iff]
          exact ⟨⟨a.fmod b, rfl⟩, hrest⟩
  | neg =>
    cases hstk : s.stack with
    | nil => exact .inr ⟨.stackUnderflow, s, (by simp [step, hstk]; try rfl), hst, hmem⟩
    | cons v rest =>
      rw [hstk, stackInts_cons_iff] at hst
      obtain ⟨⟨n, rfl⟩, hrest⟩ := hst
      refine .inl ⟨_, (by simp [step, hstk]; try rfl), ?_, by exact hmem⟩
      rw [stackInts_cons_iff]
      exact ⟨⟨-n, rfl⟩, hrest⟩
  | store x =>
    cases hstk : s.stack with
    | nil => exact .inr ⟨.stackUnderflow, s, (by simp [step, hstk]; try rfl), hst, hmem⟩
    | cons v rest =>
      rw [hstk, stackInts_cons_iff] at hst
      obtain ⟨⟨n, rfl⟩, hrest⟩ := hst
      refine .inl ⟨_, (by simp [step, hstk]; try rfl), by exact hrest, ?_⟩
      rw [memInts_cons_iff]
      exact ⟨⟨n, rfl⟩, hmem⟩
  | load x =>
    cases hlook : s.memory.lookup x with
    | none => exact .inr ⟨.undefinedVariable, s, (by simp [step, hlook]; try rfl), hst, hmem⟩
    | some v =>
      obtain ⟨k, hk⟩ := lookup_mem_values x s.memory v hlook
      obtain ⟨n, hn⟩ := hmem (k, v) hk
      refine .inl ⟨_, (by simp [step, hlook]; try rfl), ?_, by exact hmem⟩
      rw [stackInts_cons_iff]
      exact ⟨⟨n, hn⟩, hst⟩
  | jmp t =>
    by_cases hbd : 0 ≤ t ∧ t ≤ (s.instructions.length : Int)
    · exact .inl ⟨_, (by simp [step, hbd]; try rfl), by exact hst, by exact hmem⟩
    · exact .inr ⟨.invalidAddress, s, (by simp [step, hbd]; try rfl), hst, hmem⟩
  | jz t =>
    cases hstk : s.stack with
    | nil => exact .inr ⟨.stackUnderflow, s, (by simp [step, hstk]; try rfl), hst, hmem⟩
    | cons v rest =>
      rw [hstk, stackInts_cons_iff] at hst
      obtain ⟨⟨z, rfl⟩, hrest⟩ := hst
      by_cases hz : z = 0
      · subst hz
        by_cases hbd : 0 ≤ t ∧ t ≤ (s.instructions.length : Int)
        · exact .inl ⟨_, (by simp [step, hstk, hbd]; try rfl), by exact hrest, by exact hmem⟩
        · exact .inr ⟨.invalidAddress, _, (by simp [step, hstk, hbd]; try rfl), by exact hrest, by exact hmem⟩
      · exact .inl ⟨{ s with stack := rest, ip := s.ip + 1 },
          (by simp [step, hstk, hz]), hrest, hmem⟩
  | jnz t =>
    cases hstk : s.stack with
    | nil => exact .inr ⟨.stackUnderflow, s, (by simp [step, hstk]; try rfl), hst, hmem⟩
    | cons v rest =>
      rw [hstk, stackInts_cons_iff] at hst
      obtain ⟨⟨z, rfl⟩, hrest⟩ := hst
      by_cases hz : z = 0
      · subst hz
        exact .inl ⟨{ s with stack := rest, ip := s.ip + 1 },
          (by simp [step, hstk]), hrest, hmem⟩
      · by_cases hbd : 0 ≤ t ∧ t ≤ (s.instructions.length : Int)
        · exact .inl ⟨_, (by simp [step, hstk, hz, hbd]; try rfl), by exact hrest, by exact hmem⟩
        · exact .inr ⟨.invalidAddress, _, (by simp [step, hstk, hz, hbd]; try rfl),
            by exact hrest, by exact hmem⟩
  | halt => exact .inl ⟨_, rfl, hst, hmem⟩
  | eq =>
    cases hstk : s.stack with
    | nil => exact .inr ⟨.stackUnderflow, s, (by simp [step, hstk]; try rfl), hst, hmem⟩
    | cons v2 stk =>
      cases hstk2 : stk with
      | nil =>
        exact .inr ⟨.stackUnderflow, s, (by simp [step, hstk, hstk2]; try rfl), hst, hmem⟩
      | cons v1 rest =>
        rw [hstk2] at hstk
        rw [hstk, stackInts_cons_iff, stackInts_cons_iff] at hst
        refine .inl ⟨_, (by simp [step, hstk]; try rfl), ?_, by exact hmem⟩
        rw [stackInts_cons_iff]
        exact ⟨⟨_, rfl⟩, hst.2.2⟩
  | neq =>
    cases hstk : s.stack with
    | nil => exact .inr ⟨.stackUnderflow, s, (by simp [step, hstk]; try rfl), hst, hmem⟩
    | cons v2 stk =>
      cases hstk2 : stk with
      | nil =>
        exact .inr ⟨.stackUnderflow, s, (by simp [step, hstk, hstk2]; try rfl), hst, hmem⟩
      | cons v1 rest =>
        rw [hstk2] at hstk
        rw [hstk, stackInts_cons_iff, stackInts_cons_iff] at hst
        refine .inl ⟨_, (by simp [step, hstk]; try rfl), ?_, by exact hmem⟩
        rw [stackInts_cons_iff]
        exact ⟨⟨_, rfl⟩, hst.2.2⟩
  | lt =>
    cases hstk : s.stack with
    | nil => exact .inr ⟨.stackUnderflow, s, (by simp [step, hstk]; try rfl), hst, hmem⟩
    | cons v2 stk =>
      cases hstk2 : stk with
      | nil =>
        exact .inr ⟨.stackUnderflow, s, (by simp [step, hstk, hstk2]; try rfl), hst, hmem⟩
      | cons v1 rest =>
        rw [hstk2] at hstk
        rw [hstk, stackInts_cons_iff, stackInts_cons_iff] at hst
        obtain ⟨⟨b, rfl⟩, ⟨a, rfl⟩, hrest⟩ := hst
        refine .inl ⟨_, (by simp [step, hstk]; try rfl), ?_, by exact hmem⟩
        rw [stackInts_cons_iff]
        exact ⟨⟨_, rfl⟩, hrest⟩
  | gt =>
    cases hstk : s.stack with
    | nil => exact .inr ⟨.stackUnderflow, s, (by simp [step, hstk]; try rfl), hst, hmem⟩
    | cons v2 stk =>
      cases hstk2 : stk with
      | nil =>
        exact .inr ⟨.stackUnderflow, s, (by simp [step, hstk, hstk2]; try rfl), hst, hmem⟩
      | cons v1 rest =>
        rw [hstk2] at hstk
        rw [hstk, stackInts_cons_iff, stackInts_cons_iff] at hst
        obtain ⟨⟨b, rfl⟩, ⟨a, rfl⟩, hrest⟩ := hst
        refine .inl ⟨_, (by simp [step, hstk]; try rfl), ?_, by exact hmem⟩
        rw [stackInts_cons_iff]
        exact ⟨⟨_, rfl⟩, hrest⟩
  | le =>
    cases hstk : s.stack with
    | nil => exact .inr ⟨.stackUnderflow, s, (by simp [step, hstk]; try rfl), hst, hmem⟩
    | cons v2 stk =>
      cases hstk2 : stk with
      | nil =>
        exact .inr ⟨.stackUnderflow, s, (by simp [step, hstk, hstk2]; try rfl), hst, hmem⟩
      | cons v1 rest =>
        rw [hstk2] at hstk
        rw [hstk, stackInts_cons_iff, stackInts_cons_iff] at hst
        obtain ⟨⟨b, rfl⟩, ⟨a, rfl⟩, hrest⟩ := hst
        refine .inl ⟨_, (by simp [step, hstk]; try rfl), ?_, by exact hmem⟩
        rw [stackInts_cons_iff]
        exact ⟨⟨_, rfl⟩, hrest⟩
  | ge =>
    cases hstk : s.stack with
    | nil => exact .inr ⟨.stackUnderflow, s, (by simp [step, hstk]; try rfl), hst, hmem⟩
    | cons v2 stk =>
      cases hstk2 : stk with
      | nil =>
        exact .inr ⟨.stackUnderflow, s, (by simp [step, hstk, hstk2]; try rfl), hst, hmem⟩
      | cons v1 rest =>
        rw [hstk2] at hstk
        rw [hstk, stackInts_cons_iff, stackInts_cons_iff] at hst
        obtain ⟨⟨b, rfl⟩, ⟨a, rfl⟩, hrest⟩ := hst
        refine .inl ⟨_, (by simp [step, hstk]; try rfl), ?_, by exact hmem⟩
        rw [stackInts_cons_iff]
        exact ⟨⟨_, rfl⟩, hrest⟩
  | call t =>
    by_cases hbd : 0 ≤ t ∧ t < (s.instructions.length : Int)
    · refine .inl ⟨_, (by simp [step, hbd]; try rfl), ?_, by exact hmem⟩
      rw [stackInts_cons_iff]
      exact ⟨⟨_, rfl⟩, hst⟩
    · exact .inr ⟨.invalidAddress, s, (by simp [step, hbd]; try rfl), hst, hmem⟩
  | ret =>
    cases hstk : s.stack with
    | nil => exact .inr ⟨.stackUnderflow, s, (by simp [step, hstk]; try rfl), hst, hmem⟩
    | cons v rest =>
      rw [hstk, stackInts_cons_iff] at hst
      obtain ⟨⟨r, rfl⟩, hrest⟩ := hst
      by_cases hbd : 0 ≤ r ∧ r ≤ (s.instructions.length : Int)
      · exact .inl ⟨_, (by simp [step, hstk, hbd]; try rfl), by exact hrest, by exact hmem⟩
      · exact .inr ⟨.invalidReturn, _, (by simp [step, hstk, hbd]; try rfl), by exact hrest, by exact hmem⟩
  | print =>
    cases hstk : s.stack with
    | nil => exact .inr ⟨.stackUnderflow, s, (by simp [step, hstk]; try rfl), hst, hmem⟩
    | cons v rest =>
      exact .inl ⟨_, (by simp [step, hstk]; try rfl), by exact hstk ▸ hst,
        by exact hmem⟩
  | read =>
    cases hin : s.input with
    | nil => exact .inl ⟨_, (by simp [step, hin]; try rfl), by exact hst, by exact hmem⟩
    | cons line rest =>
      cases hp : parsePyInt line with
      | some n =>
        refine .inl ⟨_, (by simp [step, hin, hp]; try rfl), ?_, by exact hmem⟩
        rw [stackInts_cons_iff]
        exact ⟨⟨n, rfl⟩, hst⟩
      | none =>
        exact .inr ⟨.invalidInput, _, (by simp [step, hin, hp]; try rfl), by exact hst, by exact hmem⟩
  | unknown op => exact .inr ⟨.unknownOpcode, s, rfl, hst, hmem⟩

/-- Running any number of steps from an integer-only state never crashes
and ends in an integer-only state. -/
theorem run_preserves_IntOnly (fuel : Nat) :
    ∀ s : VMState, IntOnly s → ∃ s1, run fuel s = some s1 ∧ IntOnly s1 := by
  induction fuel with
  | zero => exact fun s h => ⟨s, rfl, h⟩
  | succ fuel ih =>
    intro s h
    rw [run]
    by_cases hh : s.halted
    · rw [if_pos hh]
      exact ⟨s, rfl, h⟩
    · rw [if_neg hh]
      by_cases hip : s.ip < s.instructions.length
      · rw [dif_pos hip]
        rcases step_preserves_IntOnly (s.instructions.get ⟨s.ip, hip⟩) s h with
          ⟨s1, heq, h1⟩ | ⟨k, s1, heq, h1⟩
        · rw [heq]
          exact ih s1 h1
        · rw [heq]
          exact ⟨_, rfl, h1.1, h1.2⟩
      · rw [dif_neg hip]
        exact ⟨s, rfl, h⟩

/-- Floor-division remainder bounds for a negative divisor, by case
analysis on the constructors of `Int.fmod`. -/
theorem fmod_bounds_of_neg : ∀ (a : Int) {b : Int}, b < 0 →
    b < a.fmod b ∧ a.fmod b ≤ 0 := by
  intro a b hb
  rcases b with n | n
  · rw [Int.ofNat_eq_coe] at hb
    exact absurd hb (by omega)
  · rcases a with m | m
    · rcases m with _ | m
      · rw [show Int.fmod (Int.ofNat 0) (Int.negSucc n) = 0 from rfl,
            Int.negSucc_eq]
        omega
      · rw [show Int.fmod (Int.ofNat (m + 1)) (Int.negSucc n) =
              Int.subNatNat (m % (n + 1)) n from rfl, Int.subNatNat_eq_coe,
            Int.negSucc_eq]
        have hm : m % (n + 1) < n + 1 := Nat.mod_lt _ (Nat.succ_pos n)
        omega
    · rw [show Int.fmod (Int.negSucc m) (Int.negSucc n) =
            -(Int.ofNat ((m + 1) % (n + 1))) from rfl, Int.ofNat_eq_coe,
          Int.negSucc_eq]
      have hm : (m + 1) % (n + 1) < n + 1 := Nat.mod_lt _ (Nat.succ_pos n)
      omega

/-- Entries already in the label table survive a successful rest of
pass 1: an insertion never shadows, because the duplicate check refuses
any name that is already bound. -/
theorem pass1_lookup_preserved (rest : List String) :
    ∀ (labels : List (String × Nat)) (counter : Nat) (raws : List String)
      (L : String) (i : Nat),
      labels.lookup L = some i →
      (pass1 rest labels counter raws).failed = false →
      (pass1 rest labels counter raws).labels.lookup L = some i := by
  induction rest with
  | nil => intro labels counter raws L i hL _; exact hL
  | cons l rest ih =>
    intro labels counter raws L i hL hout
    by_cases hc : (cleanLine l).isEmpty
    · simp only [pass1, hc, if_true] at hout ⊢
      exact ih _ _ _ _ _ hL hout
    · by_cases hcol : endsWithColon (cleanLine l)
      · by_cases hname : (labelNameOf l).isEmpty
        · simp [pass1, hc, hcol, hname] at hout
        · by_cases hdup : (labels.lookup (labelNameOf l)).isSome
          · simp [pass1, hc, hcol, hname, hdup] at hout
          · have hne : labelNameOf l ≠ L := by
              intro he
              rw [he, hL] at hdup
              exact hdup rfl
            simp only [pass1, hc, hcol, hname, hdup, if_false, if_true,
              Bool.false_eq_true, Option.isSome_some] at hout ⊢
            refine ih _ _ _ _ _ ?_ hout
            have hbeq : (L == labelNameOf l) = false :=
              beq_eq_false_iff_ne.mpr (Ne.symm hne)
            simpa [List.lookup, hbeq] using hL
      · simp only [pass1, hc, hcol, if_false, Bool.false_eq_true] at hout ⊢
        exact ih _ _ _ _ _ hL hout

/-- Pass 1 maps a label declared after the lines of `pre` to the running
counter plus the number of instruction-consuming lines of `pre`. -/
theorem pass1_label_index (pre : List String) :
    ∀ (l : String) (post : List String) (labels : List (String × Nat))
      (counter : Nat) (raws : List String),
      isLabelLine l = true →
      (pass1 (pre ++ l :: post) labels counter raws).failed = false →
      (pass1 (pre ++ l :: post) labels counter raws).labels.lookup
          (labelNameOf l)
        = some (counter + pre.countP (fun x => isInstrLine x)) := by
  induction pre with
  | nil =>
    intro l post labels counter raws hlab hout
    rw [List.nil_append] at hout ⊢
    rw [isLabelLine, Bool.and_eq_true, Bool.not_eq_true'] at hlab
    obtain ⟨hc, hcol⟩ := hlab
    by_cases hname : (labelNameOf l).isEmpty
    · simp [pass1, hc, hcol, hname] at hout
    · by_cases hdup : (labels.lookup (labelNameOf l)).isSome
      · simp [pass1, hc, hcol, hname, hdup] at hout
      · simp only [pass1, hc, hcol, hname, hdup, if_false, if_true,
          Bool.false_eq_true] at hout ⊢
        have hfirst :
            ((labelNameOf l, counter) :: labels).lookup (labelNameOf l)
              = some counter := by
          simp [List.lookup]
        simpa using pass1_lookup_preserved post _ _ _ _ _ hfirst hout
  | cons p pre ih =>
    intro l post labels counter raws hlab hout
    rw [List.cons_append] at hout ⊢
    by_cases hc : (cleanLine p).isEmpty
    · simp only [pass1, hc, if_true] at hout ⊢
      have : isInstrLine p = false := by simp [isInstrLine, hc]
      rw [List.countP_cons, this]
      simpa using ih _ _ _ _ _ hlab hout
    · by_cases hcol : endsWithColon (cleanLine p)
      · by_cases hname : (labelNameOf p).isEmpty
        · simp [pass1, hc, hcol, hname] at hout
        · by_cases hdup : (labels.lookup (labelNameOf p)).isSome
          · simp [pass1, hc, hcol, hname, hdup] at hout
          · simp only [pass1, hc, hcol, hname, hdup, if_false, if_true,
              Bool.false_eq_true] at hout ⊢
            have : isInstrLine p = false := by simp [isInstrLine, hcol]
            rw [List.countP_cons, this]
            simpa using ih _ _ _ _ _ hlab hout
      · simp only [pass1, hc, hcol, if_false, Bool.false_eq_true] at hout ⊢
        have hi : isInstrLine p = true := by
          simp [isInstrLine, hc, hcol]
        rw [List.countP_cons, hi, if_pos rfl]
        rw [ih l post labels (counter + 1) (raws ++ [cleanLine p]) hlab hout]
        congr 1
        omega

/-! ### Claim theorems -/

/-- C1, counterexample: running `PUSH 10; PUSH 0; DIV` halts with
DivideByZero, but the stack is left empty, not restored to the two
operands `[0, 10]` that were on it when DIV was attempted — the claim
that a zero divisor causes "no stack mutation" is false on the code. -/
theorem div_zero_mutates_stack_counterexample :
    (run 10 (load_bytecode ["PUSH 10", "PUSH 0", "DIV"])).map VMState.stack
      = some [] ∧
    (run 10 (load_bytecode ["PUSH 10", "PUSH 0", "DIV"])).map VMState.fault
      = some (some .divideByZero) ∧
    (run 10 (load_bytecode ["PUSH 10", "PUSH 0", "DIV"])).map VMState.stack
      ≠ some [Value.VInt 0, Value.VInt 10] := by
  refine ⟨rfl, rfl, by decide⟩

/-- C1, amended: DIV or MOD with divisor 0 on top of the stack fails
DivideByZero and halts the run, but both operands have already been
popped when the zero test runs (source lines 129-135), so the stack is
left equal to the original minus its top two elements; `ip` and all
other fields are unchanged. -/
theorem div_mod_zero_divisor_halts_after_pops (s : VMState) (v1 : Value)
    (rest : List Value) (hs : s.stack = .VInt 0 :: v1 :: rest) :
    step .div s = .fault .divideByZero { s with stack := rest } ∧
    step .mod s = .fault .divideByZero { s with stack := rest } ∧
    ∀ fuel, s.halted = false → ∀ hlt : s.ip < s.instructions.length,
      s.instructions.get ⟨s.ip, hlt⟩ = .div →
      run (fuel + 1) s =
        some { s with stack := rest, halted := true,
                      fault := some .divideByZero } := by
  refine ⟨by simp [step, hs], by simp [step, hs], ?_⟩
  intro fuel hh hlt hfetch
  simp only [run, hh, if_false, Bool.false_eq_true, dif_pos hlt, hfetch]
  simp [step, hs]

/-- C1 witness: the amended fact evaluated on the one-instruction
program `DIV` with stack `[0, 10]`. -/
theorem div_mod_zero_divisor_halts_after_pops_witness :
    run 1 ⟨[.VInt 0, .VInt 10], [], [.div], 0, false, [], [], [], none⟩ =
      some ⟨[], [], [.div], 0, true, [], [], [], some .divideByZero⟩ :=
  (div_mod_zero_divisor_halts_after_pops
    ⟨[.VInt 0, .VInt 10], [], [.div], 0, false, [], [], [], none⟩
    (.VInt 10) [] rfl).2.2 0 rfl (by decide) rfl

/-- C2, counterexample: `STORE 5` does not load successfully with
variable name "5": `_parse_arg` coerces the token to the integer 5 and
the loader then rejects the non-string operand, so loading halts with
no instruction recorded. -/
theorem store_numeric_operand_rejected_counterexample :
    (load_bytecode ["STORE 5"]).halted = true ∧
    (load_bytecode ["STORE 5"]).instructions = [] ∧
    (loadSource "STORE 5").halted = true := by
  refine ⟨rfl, rfl, rfl⟩

/-- C2, amended: a STORE/LOAD operand is recorded as the variable name
exactly when it is not parseable as an integer: for a non-empty,
already-stripped token `x` with `parsePyInt x = none`, parsing succeeds
and records `x` verbatim, while any integer-parseable token `y` is
coerced by `_parse_arg` and rejected with a load error. -/
theorem store_load_operand_never_numeric (tbl : List (String × Nat))
    (x y : String) (n : Int) (hx : parsePyInt x = none)
    (hxs : pyStrip x = x) (hxe : x.isEmpty = false)
    (hy : parsePyInt y = some n) :
    parseParts tbl "STORE" [x] = some (.store x) ∧
    parseParts tbl "LOAD" [x] = some (.load x) ∧
    parseParts tbl "STORE" [y] = none ∧
    parseParts tbl "LOAD" [y] = none := by
  refine ⟨?_, ?_, ?_, ?_⟩ <;>
    simp [parseParts, parseArg, hx, hxs, hxe, hy]

/-- C2 witness: variable name "x" is accepted, token "5" is rejected. -/
theorem store_load_operand_never_numeric_witness :
    parseParts [] "STORE" ["x"] = some (.store "x") ∧
    parseParts [] "LOAD" ["x"] = some (.load "x") ∧
    parseParts [] "STORE" ["5"] = none ∧
    parseParts [] "LOAD" ["5"] = none :=
  store_load_operand_never_numeric [] "x" "5" 5 rfl rfl rfl rfl

/-- C3: for all integers `a`, `b`, the program `PUSH a; PUSH b; ADD;
PRINT` writes `a+b` to the output sink and terminates normally with the
stack at depth 1 and top `a+b` (PRINT peeks without popping); the
concrete source text form loads to exactly these instructions and
behaves the same. -/
theorem push_push_add_print_outputs_sum :
    (∀ a b : Int, run 5 (initVM [.push a, .push b, .add, .print] []) =
      some { stack := [.VInt (a + b)], memory := [],
             instructions := [.push a, .push b, .add, .print], ip := 4,
             halted := false, labels := [], output := [.VInt (a + b)],
             input := [], fault := none }) ∧
    run 5 (loadSource "PUSH 2\nPUSH 3\nADD\nPRINT") =
      some { stack := [.VInt 5], memory := [],
             instructions := [.push 2, .push 3, .add, .print], ip := 4,
             halted := false, labels := [], output := [.VInt 5],
             input := [], fault := none } :=
  ⟨fun _ _ => rfl, rfl⟩

/-- C4: in a source that loads successfully, a label declared on line
`l` is bound to the number of instruction-consuming lines before it —
lines that after comment stripping are neither blank nor labels — and a
jump operand naming that label (a token not parseable as an integer)
resolves through the table to exactly that instruction index. -/
theorem label_resolves_to_instruction_count (pre : List String) (l : String)
    (post : List String) (t : String) (hlab : isLabelLine l = true)
    (hload : (load_bytecode (pre ++ l :: post)).halted = false)
    (ht : parsePyInt t = none) (hts : pyStrip t = labelNameOf l) :
    (load_bytecode (pre ++ l :: post)).labels.lookup (labelNameOf l)
      = some (pre.countP (fun x => isInstrLine x)) ∧
    parseParts (load_bytecode (pre ++ l :: post)).labels "JMP" [t]
      = some (.jmp (pre.countP (fun x => isInstrLine x) : Nat)) := by
  by_cases hf : (pass1 (pre ++ l :: post) [] 0 []).failed
  · rw [load_bytecode] at hload
    simp [hf] at hload
  · have htbl : (load_bytecode (pre ++ l :: post)).labels
        = (pass1 (pre ++ l :: post) [] 0 []).labels := by
      rw [load_bytecode]
      simp [hf]
    have hidx := pass1_label_index pre l post [] 0 []
      hlab (by simpa using hf)
    rw [Nat.zero_add] at hidx
    rw [htbl, hidx]
    refine ⟨rfl, ?_⟩
    simp [parseParts, resolveTarget, parseArg, ht, hts, hidx]

/-- C4 witness: in `PUSH 1; loop:; HALT` the label `loop` is bound to
index 1 and `JMP loop` resolves to 1. -/
theorem label_resolves_to_instruction_count_witness :
    (load_bytecode ["PUSH 1", "loop:", "HALT"]).labels.lookup "loop"
      = some 1 ∧
    parseParts (load_bytecode ["PUSH 1", "loop:", "HALT"]).labels "JMP"
      ["loop"] = some (.jmp 1) := by
  have h := label_resolves_to_instruction_count ["PUSH 1"] "loop:" ["HALT"]
    "loop" (by decide) (by decide) (by decide) (by decide)
  exact h

/-- C5: CALL pushes the return address `PC+1` and jumps, failing
InvalidAddress exactly when the target is outside `[0, length)`; RET
pops the return address and accepts the wider range `[0, length]`; on
the program `CALL 2; HALT; RET` control indeed returns to the
instruction directly after the CALL (index 1). -/
theorem call_pushes_return_address_ret_returns (s : VMState) (t r : Int)
    (rest : List Value) (hr : s.stack = .VInt r :: rest) :
    (step (.call t) s =
      if 0 ≤ t ∧ t < (s.instructions.length : Int) then
        .ok { s with stack := .VInt ((s.ip : Int) + 1) :: s.stack,
                     ip := t.toNat }
      else .fault .invalidAddress s) ∧
    (step .ret s =
      if 0 ≤ r ∧ r ≤ (s.instructions.length : Int) then
        .ok { s with stack := rest, ip := r.toNat }
      else .fault .invalidReturn { s with stack := rest }) ∧
    run 10 (load_bytecode ["CALL 2", "HALT", "RET"]) =
      some { stack := [], memory := [],
             instructions := [.call 2, .halt, .ret], ip := 1, halted := true,
             labels := [], output := [], input := [], fault := none } :=
  ⟨rfl, by simp [step, hr], rfl⟩

/-- C5 witness: CALL at the bound `t = length` faults, RET at the bound
`r = length` succeeds, and the round trip on `CALL 2; HALT; RET` ends at
index 1. -/
theorem call_pushes_return_address_ret_returns_witness :
    step (.call 1) ⟨[.VInt 1], [], [.ret], 0, false, [], [], [], none⟩ =
      .fault .invalidAddress ⟨[.VInt 1], [], [.ret], 0, false, [], [], [], none⟩ ∧
    step .ret ⟨[.VInt 1], [], [.ret], 0, false, [], [], [], none⟩ =
      .ok ⟨[], [], [.ret], 1, false, [], [], [], none⟩ ∧
    run 10 (load_bytecode ["CALL 2", "HALT", "RET"]) =
      some { stack := [], memory := [],
             instructions := [.call 2, .halt, .ret], ip := 1, halted := true,
             labels := [], output := [], input := [], fault := none } := by
  have h := call_pushes_return_address_ret_returns
    ⟨[.VInt 1], [], [.ret], 0, false, [], [], [], none⟩ 1 1 [] rfl
  exact ⟨h.1, h.2.1, h.2.2⟩

/-- C6: JMP sets the program counter to `t` when `0 ≤ t ≤ length` and
fails InvalidAddress (halting the run) otherwise; the boundary `t =
length` is legal and makes the run loop stop on the next fetch, so
`JMP 1` on a one-instruction program terminates normally while `JMP 2`
halts with InvalidAddress. -/
theorem jmp_bounds_boundary_terminates (s : VMState) (t : Int) (fuel : Nat)
    (hend : s.ip = s.instructions.length) :
    (step (.jmp t) s =
      if 0 ≤ t ∧ t ≤ (s.instructions.length : Int) then
        .ok { s with ip := t.toNat }
      else .fault .invalidAddress s) ∧
    run fuel s = some s ∧
    run 10 (load_bytecode ["JMP 1"]) =
      some { stack := [], memory := [], instructions := [.jmp 1], ip := 1,
             halted := false, labels := [], output := [], input := [],
             fault := none } ∧
    run 10 (load_bytecode ["JMP 2"]) =
      some { stack := [], memory := [], instructions := [.jmp 2], ip := 0,
             halted := true, labels := [], output := [], input := [],
             fault := some .invalidAddress } := by
  refine ⟨rfl, ?_, rfl, rfl⟩
  rcases fuel with _ | fuel
  · rfl
  · simp [run, hend]

/-- C6 witness: the boundary fact applied to the terminal state of
`JMP 1` (program counter equal to the program length). -/
theorem jmp_bounds_boundary_terminates_witness :
    run 3 ⟨[], [], [.jmp 1], 1, false, [], [], [], none⟩ =
      some ⟨[], [], [.jmp 1], 1, false, [], [], [], none⟩ :=
  (jmp_bounds_boundary_terminates ⟨[], [], [.jmp 1], 1, false, [], [], [], none⟩
    0 3 rfl).2.1

/-- C7: for a non-zero divisor `b` popped first (top of stack) and
dividend `a` popped second, DIV pushes the floor quotient `Int.fdiv a b`
(Python `a // b`) and MOD pushes the floor remainder `Int.fmod a b`
(Python `a % b`), which satisfies `a = (a // b) * b + (a mod b)` and
whose sign follows the divisor: non-negative and below `b` for `b > 0`,
non-positive and above `b` for `b < 0`. -/
theorem div_mod_floor_division (s : VMState) (a b : Int) (rest : List Value)
    (hb : b ≠ 0) (hs : s.stack = .VInt b :: .VInt a :: rest) :
    step .div s = .ok { s with stack := .VInt (a.fdiv b) :: rest,
                               ip := s.ip + 1 } ∧
    step .mod s = .ok { s with stack := .VInt (a.fmod b) :: rest,
                               ip := s.ip + 1 } ∧
    a = a.fdiv b * b + a.fmod b ∧
    (0 < b → 0 ≤ a.fmod b ∧ a.fmod b < b) ∧
    (b < 0 → b < a.fmod b ∧ a.fmod b ≤ 0) := by
  refine ⟨by simp [step, hs, hb], by simp [step, hs, hb], ?_, ?_, ?_⟩
  · have h := Int.fdiv_add_fmod a b
    rw [mul_comm] at h
    omega
  · intro hpos
    exact ⟨Int.fmod_nonneg' a hpos, Int.fmod_lt_of_pos a hpos⟩
  · intro hneg
    exact fmod_bounds_of_neg a hneg

/-- C7 witness: `a = 7`, `b = -3` — quotient `-3`, remainder `-2`
(sign follows the divisor). -/
theorem div_mod_floor_division_witness :
    step .div ⟨[.VInt (-3), .VInt 7], [], [], 0, false, [], [], [], none⟩ =
      .ok ⟨[.VInt (-3)], [], [], 1, false, [], [], [], none⟩ ∧
    step .mod ⟨[.VInt (-3), .VInt 7], [], [], 0, false, [], [], [], none⟩ =
      .ok ⟨[.VInt (-2)], [], [], 1, false, [], [], [], none⟩ ∧
    (7 : Int) = Int.fdiv 7 (-3) * (-3) + Int.fmod 7 (-3) := by
  have h := div_mod_floor_division
    ⟨[.VInt (-3), .VInt 7], [], [], 0, false, [], [], [], none⟩
    7 (-3) [] (by decide) rfl
  exact ⟨h.1, h.2.1, h.2.2.1⟩

/-- C8: a halted interpreter state — in particular the state left by any
failed load, in either pass — makes `run` a no-op returning the state
unchanged; and a failure in pass 1 or in pass 2 always sets the halted
flag at load time. -/
theorem failed_load_halts_and_run_is_noop (s : VMState) (fuel : Nat)
    (h : s.halted = true) :
    run fuel s = some s ∧
    (∀ lines, (pass1 lines [] 0 []).failed = true →
      (load_bytecode lines).halted = true) ∧
    (∀ lines, (pass1 lines [] 0 []).failed = false →
      (pass2 (pass1 lines [] 0 []).labels (pass1 lines [] 0 []).raws []).failed
        = true →
      (load_bytecode lines).halted = true) := by
  refine ⟨?_, ?_, ?_⟩
  · rcases fuel with _ | fuel
    · rfl
    · simp [run, h]
  · intro lines hf
    simp [load_bytecode, hf]
  · intro lines hf1 hf2
    simp [load_bytecode, hf1, hf2]

/-- C8 witness: the source line `:` fails pass 1 (empty label name), the
loaded state is halted, and running it is a no-op. -/
theorem failed_load_halts_and_run_is_noop_witness :
    run 3 (load_bytecode [":"]) = some (load_bytecode [":"]) :=
  (failed_load_halts_and_run_is_noop (load_bytecode [":"]) 3 rfl).1

/-- C9: a freshly loaded program satisfies the integer-only invariant,
every run from an integer-only state stays integer-only and never
reaches the uncatchable TypeError path (`run` returns `some`), and in an
integer-only state the value RET pops is always an integer — so RET can
only fail its range condition, never its type condition. -/
theorem stack_is_integer_only :
    (∀ lines, IntOnly (load_bytecode lines)) ∧
    (∀ fuel s, IntOnly s → ∃ s1, run fuel s = some s1 ∧ IntOnly s1) ∧
    (∀ s v rest, IntOnly s → s.stack = v :: rest → ∃ r, v = Value.VInt r) := by
  refine ⟨?_, run_preserves_IntOnly, ?_⟩
  · intro lines
    have hs : (load_bytecode lines).stack = [] ∧
        (load_bytecode lines).memory = [] := by
      unfold load_bytecode
      dsimp only
      split <;> exact ⟨rfl, rfl⟩
    constructor
    · rw [hs.1]
      intro v hv
      cases hv
    · rw [hs.2]
      intro p hp
      cases hp
  · intro s v rest h hsk
    obtain ⟨hst, _⟩ := h
    rw [hsk, stackInts_cons_iff] at hst
    exact hst.1

/-- C9 witness: the loaded program `PUSH 1; PRINT` is integer-only and
running it stays integer-only without crashing. -/
theorem stack_is_integer_only_witness :
    ∃ s1, run 3 (load_bytecode ["PUSH 1", "PRINT"]) = some s1 ∧ IntOnly s1 :=
  stack_is_integer_only.2.1 3 (load_bytecode ["PUSH 1", "PRINT"])
    (stack_is_integer_only.1 ["PUSH 1", "PRINT"])

/-- C10: when the popped value makes a JZ/JNZ condition false, execution
falls through to `ip+1` with no bounds check on the target operand, so
an out-of-range target such as 999 raises no error when the branch is
not taken. -/
theorem branch_not_taken_skips_target_check (s : VMState) (t : Int)
    (v : Value) (rest : List Value) (hs : s.stack = v :: rest) :
    (v ≠ .VInt 0 → step (.jz t) s = .ok { s with stack := rest, ip := s.ip + 1 }) ∧
    (v = .VInt 0 → step (.jnz t) s = .ok { s with stack := rest, ip := s.ip + 1 }) ∧
    run 10 (load_bytecode ["PUSH 1", "JZ 999", "HALT"]) =
      some { stack := [], memory := [],
             instructions := [.push 1, .jz 999, .halt], ip := 2, halted := true,
             labels := [], output := [], input := [], fault := none } ∧
    run 10 (load_bytecode ["PUSH 0", "JNZ 999", "HALT"]) =
      some { stack := [], memory := [],
             instructions := [.push 0, .jnz 999, .halt], ip := 2, halted := true,
             labels := [], output := [], input := [], fault := none } := by
  refine ⟨?_, ?_, rfl, rfl⟩
  · intro hv
    simp [step, hs, hv]
  · intro hv
    simp [step, hs, hv]

/-- C10 witness: the fall-through equations at a concrete state with the
out-of-range target 999. -/
theorem branch_not_taken_skips_target_check_witness :
    step (.jz 999) ⟨[.VInt 1], [], [.jz 999], 0, false, [], [], [], none⟩ =
      .ok ⟨[], [], [.jz 999], 1, false, [], [], [], none⟩ := by
  have h := branch_not_taken_skips_target_check
    ⟨[.VInt 1], [], [.jz 999], 0, false, [], [], [], none⟩ 999 (.VInt 1) [] rfl
  exact h.1 (by decide)

end ByteVM
